import Mathlib

/-!
Verification of the post-lifecycle scheduler and comment-response pipeline
of the Communication-Specialist-AI backend.

The definitions below are a shallow embedding of `app/scheduler.py`,
`app/ai_agent.py` and the data model of `app/models.py`:

* The persistent store is modelled as an explicit list of rows; a SQLAlchemy
  `filter_by(...).first()` becomes `List.find?` and an in-place mutation of
  the fetched row becomes an update of the first matching list entry.
* Calls to external collaborators (platform adapters, the AI classifier and
  generator) are modelled by passing their would-be results as explicit
  parameters, together with flags recording whether each call was made.
* Civil dates and times are abstract integers; strings are Lean `String`s,
  with Python's `in` (substring), `.split()`, `.strip()` and `.lower()`
  modelled by the corresponding list/string operations.
-/

namespace CommSpec

/-- Post lifecycle status, the string values `"Scheduled" | "Published" |
"Failed" | "Cancelled"` used by `SocialMediaPosts.Status`. -/
inductive PostStatus
  | Scheduled
  | Published
  | Failed
  | Cancelled
deriving DecidableEq

/-- A row of the `SocialMediaPosts` table. `PostDate`/`PostTime` are abstract
civil date and time values. `PlatformPostID` is nullable. -/
structure SocialMediaPost where
  PostID : String
  Platform : String
  PostDate : Int
  PostTime : Int
  ContentPreview : String
  CampaignTag : String
  Status : PostStatus
  EventID : String
  PlatformPostID : Option String
deriving DecidableEq

/-- Result dictionary returned by a platform adapter's `schedule_post`:
`success` plus `result.get("post_id", None)`. -/
structure PubResult where
  success : Bool
  post_id : Option String
deriving DecidableEq

/-- Outcome of one run of `_publish_scheduled_post`: the post store after the
run, whether the platform adapter was called, and whether comment monitoring
was registered. -/
structure PublishOutcome where
  posts : List SocialMediaPost
  adapterCalled : Bool
  monitorScheduled : Bool
deriving DecidableEq

/-- Models `db.query(SocialMediaPosts).filter_by(PostID=post_id, Platform=platform).first()`. -/
def findPost (posts : List SocialMediaPost) (post_id platform : String) :
    Option SocialMediaPost :=
  posts.find? (fun p => p.PostID == post_id && p.Platform == platform)

/-- Mutating the row fetched by `findPost`: replace the first matching row. -/
def updateFirstPost (posts : List SocialMediaPost) (post_id platform : String)
    (f : SocialMediaPost → SocialMediaPost) : List SocialMediaPost :=
  match posts with
  | [] => []
  | p :: rest =>
    if p.PostID == post_id && p.Platform == platform then f p :: rest
    else p :: updateFirstPost rest post_id platform f

/-- Embeds `CommunicationScheduler._publish_scheduled_post` (scheduler.py:347-394).
Looks the post up by `(PostID, Platform)`; returns untouched if missing,
already `Published`, already `Cancelled`, or the platform adapter is
unavailable; otherwise calls the adapter (`result`): on success sets
`Status = Published`, stores `result.get("post_id", None)` and schedules
comment monitoring; on failure sets `Status = Failed`. -/
def publishScheduledPost (posts : List SocialMediaPost) (post_id platform : String)
    (platformAvailable : Bool) (result : PubResult) : PublishOutcome :=
  match findPost posts post_id platform with
  | none => ⟨posts, false, false⟩
  | some post =>
    if post.Status = PostStatus.Published then ⟨posts, false, false⟩
    else if post.Status = PostStatus.Cancelled then ⟨posts, false, false⟩
    else if platformAvailable = false then ⟨posts, false, false⟩
    else if result.success then
      ⟨updateFirstPost posts post_id platform
        (fun p => { p with Status := PostStatus.Published,
                           PlatformPostID := result.post_id }), true, true⟩
    else
      ⟨updateFirstPost posts post_id platform
        (fun p => { p with Status := PostStatus.Failed }), true, false⟩

/-- The post row inserted by `CommunicationScheduler.schedule_post`
(scheduler.py:223-233): a fresh post is created with `Status = "Scheduled"`
and `PlatformPostID = None`. -/
def mkScheduledPost (post_id platform : String) (d t : Int)
    (content campaignTag eventID : String) : SocialMediaPost :=
  { PostID := post_id
    Platform := platform
    PostDate := d
    PostTime := t
    ContentPreview := content
    CampaignTag := campaignTag
    Status := PostStatus.Scheduled
    EventID := eventID
    PlatformPostID := none }

/-- The spec's post invariant: `Status == Published ⇔ PlatformPostID != null`. -/
def postInv (p : SocialMediaPost) : Prop :=
  p.Status = PostStatus.Published ↔ p.PlatformPostID ≠ none

instance (p : SocialMediaPost) : Decidable (postInv p) := by
  unfold postInv; infer_instance

/-- A concrete already-published post used by witnesses. -/
def samplePublishedPost : SocialMediaPost :=
  { mkScheduledPost "P1" "devto" 0 0 "c" "#e" "E1" with
      Status := PostStatus.Published, PlatformPostID := some "A1" }

/-- Python `s.strip()`: remove leading and trailing whitespace. -/
def pyStrip (s : String) : String :=
  String.mk (((s.toList.dropWhile Char.isWhitespace).reverse.dropWhile
    Char.isWhitespace).reverse)

/-- Python `s.lower()`. -/
def pyLower (s : String) : String :=
  String.mk (s.toList.map Char.toLower)

/-- Python `sub in s`: `needle` occurs as a contiguous substring. -/
def isSubList : List Char → List Char → Bool
  | needle, [] => needle.isEmpty
  | needle, c :: rest => needle.isPrefixOf (c :: rest) || isSubList needle rest

/-- Python `sub in s` on strings. -/
def pyContains (sub s : String) : Bool :=
  isSubList sub.toList s.toList

/-- Helper for `pySplit`: scan the characters, accumulating the current word
reversed. -/
def splitWsAux : List Char → List Char → List String
  | [], acc => if acc.isEmpty then [] else [String.mk acc.reverse]
  | c :: rest, acc =>
    if c.isWhitespace then
      if acc.isEmpty then splitWsAux rest []
      else String.mk acc.reverse :: splitWsAux rest []
    else splitWsAux rest (c :: acc)

/-- Python `s.split()` with no argument: split on whitespace runs, dropping
empty tokens. -/
def pySplit (s : String) : List String :=
  splitWsAux s.toList []

/-- Comment response status, the string values `"Pending" | "Responded" |
"Failed" | "Escalated"` of `SocialMediaComments.ResponseStatus`. -/
inductive RStatus
  | Pending
  | Responded
  | Failed
  | Escalated
deriving DecidableEq

/-- A row of the `SocialMediaComments` table. -/
structure CommentRow where
  CommentID : String
  PostID : String
  UserName : String
  CommentText : String
  Timestamp : Int
  ResponseStatus : RStatus
  Class : Option String
  RetryCount : Nat
deriving DecidableEq

/-- A raw comment dictionary as returned by a platform adapter's
`get_comments`: `comment_id`, `text`, `user_name`, `timestamp`. -/
structure RawComment where
  comment_id : String
  text : String
  user_name : String
  timestamp : Int
deriving DecidableEq

/-- Results of the external AI/adapter calls made while processing one
comment: `classifyRes` is `classify_comment`'s label (`none` models an
exception or a result without a `classification` key, for which the code
substitutes the default `"event-related"`); `generateRes` is the generated
response text (`none` models `success == False` or an exception);
`sendOk` is whether `respond_to_comment` succeeded. -/
structure CommentEnv where
  classifyRes : Option String
  generateRes : Option String
  sendOk : Bool
deriving DecidableEq

/-- Outcome of processing one raw comment: the comment store afterwards plus
flags recording whether the classifier, the response generator and the
reply-send adapter call were attempted for this comment. -/
structure StepResult where
  comments : List CommentRow
  classifyCalled : Bool
  generateCalled : Bool
  sendCalled : Bool
deriving DecidableEq

/-- Models `db.query(SocialMediaComments).filter_by(CommentID=comment_id).first()`. -/
def findComment (comments : List CommentRow) (cid : String) : Option CommentRow :=
  comments.find? (fun r => r.CommentID == cid)

/-- Mutating the row fetched by `findComment`: replace the first matching row. -/
def updateFirstComment (comments : List CommentRow) (cid : String)
    (f : CommentRow → CommentRow) : List CommentRow :=
  match comments with
  | [] => []
  | r :: rest =>
    if r.CommentID == cid then f r :: rest
    else r :: updateFirstComment rest cid f

/-- The response status and whether a reply send was attempted, from the
generation/send block (scheduler.py:513-543): if generation does not succeed
the status is `Failed` and no send happens; otherwise the reply is sent and
the status is `Responded` on success, `Failed` on failure. -/
def commentOutcome (env : CommentEnv) : RStatus × Bool :=
  match env.generateRes with
  | none => (RStatus.Failed, false)
  | some _ => (if env.sendOk then RStatus.Responded else RStatus.Failed, true)

/-- Processing of a single raw comment inside `_monitor_comments`
(scheduler.py:475-588). `clean` models `html_to_text`. Skips comments with a
blank id or blank cleaned text; skips rows already `Responded`; escalates
rows with `RetryCount >= 3`; otherwise classifies (falling back to
`"event-related"`), generates and sends, updating the existing row with
`RetryCount + 1` or inserting a new row with `RetryCount = 1`. -/
def processComment (clean : String → String) (comments : List CommentRow)
    (post_id : String) (c : RawComment) (env : CommentEnv) : StepResult :=
  if pyStrip c.comment_id = "" then ⟨comments, false, false, false⟩
  else
    let comment_id := pyStrip c.comment_id
    let cleaned_text := clean c.text
    if pyStrip cleaned_text = "" then ⟨comments, false, false, false⟩
    else
      match findComment comments comment_id with
      | some existing =>
        if existing.ResponseStatus = RStatus.Responded then
          ⟨comments, false, false, false⟩
        else if 3 ≤ existing.RetryCount then
          ⟨updateFirstComment comments comment_id
            (fun r => { r with ResponseStatus := RStatus.Escalated }),
            false, false, false⟩
        else
          let cls := env.classifyRes.getD "event-related"
          let out := commentOutcome env
          ⟨updateFirstComment comments comment_id
            (fun r => { r with ResponseStatus := out.1,
                               CommentText := cleaned_text,
                               Timestamp := c.timestamp,
                               Class := some cls,
                               RetryCount := r.RetryCount + 1 }),
            true, true, out.2⟩
      | none =>
          let cls := env.classifyRes.getD "event-related"
          let out := commentOutcome env
          ⟨comments ++ [{ CommentID := comment_id
                          PostID := post_id
                          UserName := c.user_name
                          CommentText := cleaned_text
                          Timestamp := c.timestamp
                          ResponseStatus := out.1
                          Class := some cls
                          RetryCount := 1 }],
            true, true, out.2⟩

/-- Accumulated result of one poll pass: the store plus the trimmed ids of
the comments for which a classification, a generation and a reply send were
attempted. -/
structure PassResult where
  comments : List CommentRow
  classified : List String
  generated : List String
  replied : List String
deriving DecidableEq

/-- One iteration of the `for comment in comments` loop. -/
def monitorStep (clean : String → String) (post_id : String)
    (ps : PassResult) (item : RawComment × CommentEnv) : PassResult :=
  let res := processComment clean ps.comments post_id item.1 item.2
  { comments := res.comments
    classified :=
      if res.classifyCalled then ps.classified ++ [pyStrip item.1.comment_id]
      else ps.classified
    generated :=
      if res.generateCalled then ps.generated ++ [pyStrip item.1.comment_id]
      else ps.generated
    replied :=
      if res.sendCalled then ps.replied ++ [pyStrip item.1.comment_id]
      else ps.replied }

/-- One firing of `_monitor_comments` for a post: the fetched batch of raw
comments (each paired with the results of its external calls) is processed
sequentially. -/
def monitorComments (clean : String → String) (comments : List CommentRow)
    (post_id : String) (batch : List (RawComment × CommentEnv)) : PassResult :=
  batch.foldl (monitorStep clean post_id) ⟨comments, [], [], []⟩

/-- A sequence of poll passes (post id and batch per pass); returns the final
comment store and every trimmed comment id a reply was sent to. -/
def runPasses (clean : String → String) (comments : List CommentRow)
    (passes : List (String × List (RawComment × CommentEnv))) :
    List CommentRow × List String :=
  passes.foldl
    (fun acc pr =>
      ((monitorComments clean acc.1 pr.1 pr.2).comments,
        acc.2 ++ (monitorComments clean acc.1 pr.1 pr.2).replied))
    (comments, [])

/-- The auxiliary invariant justifying C5: an `Escalated` row always has
`RetryCount >= 3` (escalation is only ever performed at such rows and leaves
`RetryCount` untouched; processed rows never become `Escalated`). -/
def escInv (comments : List CommentRow) : Prop :=
  ∀ r ∈ comments, r.ResponseStatus = RStatus.Escalated → 3 ≤ r.RetryCount

instance (comments : List CommentRow) : Decidable (escInv comments) := by
  unfold escInv; infer_instance

/-- Sample rows and batch items for concrete checks. -/
def respondedRow3 : CommentRow :=
  ⟨"c1", "P1", "u", "hi", 0, RStatus.Responded, some "event-related", 3⟩

def failedRow3 : CommentRow :=
  ⟨"c1", "P1", "u", "hi", 0, RStatus.Failed, some "event-related", 3⟩

def sampleRaw : RawComment := ⟨"c1", "hello", "u", 1⟩

def sampleEnv : CommentEnv := ⟨some "event-related", some "ok", true⟩

/-- APScheduler job id for the one-shot publish timer:
the f-string joining "publish_", the post id, "_" and the platform. -/
def publishJobId (post_id platform : String) : String :=
  "publish_" ++ post_id ++ "_" ++ platform

/-- The registered one-shot timers: job id to (date, time) run date. -/
def lookupJob (timers : List (String × Int × Int)) (job_id : String) :
    Option (Int × Int) :=
  (timers.find? (fun j => j.1 == job_id)).map (fun j => j.2)

/-- Models `scheduler.reschedule_job(job_id, trigger=DateTrigger(run_date=...))`:
updates the job's run date; raises (here: `none`) when no such job exists. -/
def rescheduleJob (timers : List (String × Int × Int)) (job_id : String)
    (d t : Int) : Option (List (String × Int × Int)) :=
  if timers.any (fun j => j.1 == job_id) then
    some (timers.map (fun j => if j.1 == job_id then (job_id, d, t) else j))
  else none

/-- Models `db.query(SocialMediaPosts).filter_by(PostID=post_id, Status="Scheduled").first()`. -/
def findScheduledPost (posts : List SocialMediaPost) (post_id : String) :
    Option SocialMediaPost :=
  posts.find? (fun p => p.PostID == post_id && p.Status == PostStatus.Scheduled)

/-- Replace the first row matching `(PostID, Status == Scheduled)`. -/
def updateFirstScheduledPost (posts : List SocialMediaPost) (post_id : String)
    (f : SocialMediaPost → SocialMediaPost) : List SocialMediaPost :=
  match posts with
  | [] => []
  | p :: rest =>
    if p.PostID == post_id && p.Status == PostStatus.Scheduled then f p :: rest
    else p :: updateFirstScheduledPost rest post_id f

/-- The field updates of `edit_scheduled_post` (scheduler.py:303-311):
content is replaced only when `new_content` is truthy (non-`None` and
non-empty), and the scheduled date/time when `new_time` is given. -/
def applyEdit (new_content : Option String) (new_time : Option (Int × Int))
    (p : SocialMediaPost) : SocialMediaPost :=
  let p1 := match new_content with
    | some s => if s ≠ "" then { p with ContentPreview := s } else p
    | none => p
  match new_time with
  | some dt => { p1 with PostDate := dt.1, PostTime := dt.2 }
  | none => p1

/-- Outcome of `edit_scheduled_post`: post store, timer store, success flag. -/
structure EditOutcome where
  posts : List SocialMediaPost
  timers : List (String × Int × Int)
  success : Bool
deriving DecidableEq

/-- Embeds `CommunicationScheduler.edit_scheduled_post` (scheduler.py:296-322).
Fetches the post by `(PostID, Status == "Scheduled")`; if absent, returns an
error without changing anything. Otherwise applies the content/time updates
and, when a new time is given, reschedules the publish timer — a failed
reschedule (missing job) raises, rolling back the uncommitted field updates. -/
def editScheduledPost (posts : List SocialMediaPost)
    (timers : List (String × Int × Int)) (post_id : String)
    (new_content : Option String) (new_time : Option (Int × Int)) : EditOutcome :=
  match findScheduledPost posts post_id with
  | none => ⟨posts, timers, false⟩
  | some post =>
    match new_time with
    | some dt =>
      match rescheduleJob timers (publishJobId post_id post.Platform) dt.1 dt.2 with
      | some timers2 =>
        ⟨updateFirstScheduledPost posts post_id (applyEdit new_content new_time),
          timers2, true⟩
      | none => ⟨posts, timers, false⟩
    | none =>
      ⟨updateFirstScheduledPost posts post_id (applyEdit new_content new_time),
        timers, true⟩

/-- A candidate event dictionary as handed to `_fuzzy_event_match`: title,
description and an optional (already-parsed) date.  The string-parsing
branches of the source (`"%Y-%m-%d"` etc.) are outside the model: `Date`
is the parsed date or `none`. -/
structure EventC where
  EventID : String
  Title : String
  Description : String
  Date : Option Int
deriving DecidableEq

/-- The per-event score of `_fuzzy_event_match` (ai_agent.py:494-546), over
the already-lowercased query `user_lower`:
`+100` for title/query mutual substring, `+20` per title word longer than 3
characters occurring in the query, `+10` if any query word longer than 3
characters occurs in the description, then an `elif` chain of date bonuses
(+50 today, +50 tomorrow, +30 "this week" with `(date - today).days <= 7`)
plus `+5` when `(today - date).days <= 30`. -/
def scoreEvent (user_lower : String) (current_date : Int) (e : EventC) : Nat :=
  let title := pyLower e.Title
  let description := pyLower e.Description
  let s1 : Nat :=
    if pyContains title user_lower || pyContains user_lower title then 100 else 0
  let s2 : Nat :=
    20 * ((pySplit title).countP (fun w => decide (3 < w.length) && pyContains w user_lower))
  let s3 : Nat :=
    if description ≠ "" ∧
        (pySplit user_lower).any (fun w => decide (3 < w.length) && pyContains w description) = true
    then 10 else 0
  let s4 : Nat :=
    match e.Date with
    | none => 0
    | some d =>
      let dateBonus : Nat :=
        if pyContains "today" user_lower = true ∧ d = current_date then 50
        else if pyContains "tomorrow" user_lower = true ∧ d = current_date + 1 then 50
        else if pyContains "this week" user_lower = true ∧ d - current_date ≤ 7 then 30
        else 0
      let recency : Nat := if current_date - d ≤ 30 then 5 else 0
      dateBonus + recency
  s1 + s2 + s3 + s4

/-- The scoring formula exactly as claim C6 states it: identical to
`scoreEvent` except that the "+30 this week" bonus requires the event date
to be within 7 days in either direction (events more than 7 days in the past
get no bonus) and the "+5" recency bonus requires the event to have
*occurred* within the last 30 days (future events get none). -/
def specScoreEvent (user_lower : String) (current_date : Int) (e : EventC) : Nat :=
  let title := pyLower e.Title
  let description := pyLower e.Description
  let s1 : Nat :=
    if pyContains title user_lower || pyContains user_lower title then 100 else 0
  let s2 : Nat :=
    20 * ((pySplit title).countP (fun w => decide (3 < w.length) && pyContains w user_lower))
  let s3 : Nat :=
    if description ≠ "" ∧
        (pySplit user_lower).any (fun w => decide (3 < w.length) && pyContains w description) = true
    then 10 else 0
  let s4 : Nat :=
    match e.Date with
    | none => 0
    | some d =>
      let dateBonus : Nat :=
        if pyContains "today" user_lower = true ∧ d = current_date then 50
        else if pyContains "tomorrow" user_lower = true ∧ d = current_date + 1 then 50
        else if pyContains "this week" user_lower = true ∧
            (-7 ≤ d - current_date ∧ d - current_date ≤ 7) then 30
        else 0
      let recency : Nat :=
        if 0 ≤ current_date - d ∧ current_date - d ≤ 30 then 5 else 0
      dateBonus + recency
  s1 + s2 + s3 + s4

/-- "+100 if title and query are substrings of one another". -/
def titleBonus (user_lower title : String) : Nat :=
  if pyContains title user_lower || pyContains user_lower title then 100 else 0

/-- "+20 per title word longer than 3 characters present in the query". -/
def titleWordBonus (user_lower title : String) : Nat :=
  20 * ((pySplit title).countP (fun w => decide (3 < w.length) && pyContains w user_lower))

/-- "+10 if any query word longer than 3 characters appears in the
(non-empty) description". -/
def descrBonus (user_lower description : String) : Nat :=
  if description ≠ "" ∧
      (pySplit user_lower).any (fun w => decide (3 < w.length) && pyContains w description) = true
  then 10 else 0

/-- The relative-date bonus, first match wins: +50 today, +50 tomorrow,
else +30 when the query mentions "this week" and the event date is at most
7 days in the future (every past event qualifies). -/
def dateRelevanceBonus (user_lower : String) (current_date d : Int) : Nat :=
  if pyContains "today" user_lower = true ∧ d = current_date then 50
  else if pyContains "tomorrow" user_lower = true ∧ d = current_date + 1 then 50
  else if pyContains "this week" user_lower = true ∧ d ≤ current_date + 7 then 30
  else 0

/-- "+5" whenever the event date is at least `current_date - 30`, i.e.
within the last 30 days or anywhere in the future. -/
def recencyBonus (current_date d : Int) : Nat :=
  if current_date - 30 ≤ d then 5 else 0

/-- The score as a sum of the independent bonus terms (the amended C6
formula). -/
def amendedScoreEvent (user_lower : String) (current_date : Int) (e : EventC) : Nat :=
  titleBonus user_lower (pyLower e.Title) +
  titleWordBonus user_lower (pyLower e.Title) +
  descrBonus user_lower (pyLower e.Description) +
  (match e.Date with
   | none => 0
   | some d => dateRelevanceBonus user_lower current_date d +
       recencyBonus current_date d)

/-- Result of a successful event resolution: the chosen event and the
reported confidence (Python floats modelled as rationals). -/
structure MatchResult where
  event : EventC
  confidence : ℚ
deriving DecidableEq

/-- Python `scored_events.sort(key=..., reverse=True)` is a *stable* descending
sort, so `scored_events[0]` is the first list element attaining the maximal
score; modelled directly as a left fold that replaces the current best only
on a strictly greater score. -/
def pickBestScored : List (EventC × Nat) → Option (EventC × Nat)
  | [] => none
  | x :: xs => some (xs.foldl (fun b y => if b.2 < y.2 then y else b) x)

/-- Models `datetime.min.date()`, the sentinel used for events with no parsable
date: earlier than every real date in the model. -/
def dateMin : Int := -(10 ^ 9)

/-- Embeds `get_event_date` (ai_agent.py:559-575): the event's parsed date, or the
sentinel. -/
def getEventDate (e : EventC) : Int :=
  e.Date.getD dateMin

/-- Models `max(available_events, key=get_event_date)`: Python `max` returns the
first element attaining the maximal key; raises (here `none`) on an empty
list. -/
def mostRecentEvent : List EventC → Option EventC
  | [] => none
  | e :: es => some (es.foldl (fun b y => if getEventDate b < getEventDate y then y else b) e)

/-- Embeds `AICommunicationAgent._fuzzy_event_match` (ai_agent.py:494-586): score
every candidate over the lowercased prompt; if the best score is positive
return that candidate with confidence `min(0.8, score/100)`; otherwise fall
back to the most recent event with confidence `0.3`; an empty candidate
list yields failure (`None`). -/
def fuzzyEventMatch (user_prompt : String) (current_date : Int)
    (events : List EventC) : Option MatchResult :=
  let user_lower := pyLower user_prompt
  let scored := events.map (fun e => (e, scoreEvent user_lower current_date e))
  match pickBestScored scored with
  | some bs =>
    if 0 < bs.2 then some ⟨bs.1, min (4 / 5 : ℚ) ((bs.2 : ℚ) / 100)⟩
    else (mostRecentEvent events).map (fun e => ⟨e, 3 / 10⟩)
  | none => (mostRecentEvent events).map (fun e => ⟨e, 3 / 10⟩)

/-- The scored pair the resolver's stable descending sort puts first. -/
def bestScored (q : String) (cur : Int) (e0 : EventC) (es : List EventC) :
    EventC × Nat :=
  (es.map (fun e => (e, scoreEvent (pyLower q) cur e))).foldl
    (fun b y => if b.2 < y.2 then y else b) (e0, scoreEvent (pyLower q) cur e0)

/-- The first date-maximal event of a non-empty candidate list. -/
def mostRecent0 (e0 : EventC) (es : List EventC) : EventC :=
  es.foldl (fun b y => if getEventDate b < getEventDate y then y else b) e0

/-- Two concrete candidates with identical titles and descriptions, whose
only difference is the event date (and id). -/
def evOlder : EventC := ⟨"E1", "Alphabet Conference", "", some 100⟩

def evNewer : EventC := ⟨"E2", "Alphabet Conference", "", some 200⟩

theorem findPost_eq_none_updateFirstPost (posts : List SocialMediaPost)
    (post_id platform : String) (f : SocialMediaPost → SocialMediaPost)
    (h : findPost posts post_id platform = none) :
    updateFirstPost posts post_id platform f = posts := by
  induction posts with
  | nil => rfl
  | cons p rest ih =>
    cases hm : (p.PostID == post_id && p.Platform == platform) with
    | true =>
      simp only [findPost, List.find?_cons, hm] at h
      exact absurd h (Option.some_ne_none p)
    | false =>
      simp only [findPost, List.find?_cons, hm] at h
      simp only [updateFirstPost, hm, Bool.false_eq_true, if_false, List.cons.injEq]
      exact ⟨trivial, ih h⟩

theorem mem_updateFirstPost (posts : List SocialMediaPost)
    (post_id platform : String) (f : SocialMediaPost → SocialMediaPost)
    (q : SocialMediaPost) (hq : findPost posts post_id platform = some q) :
    ∀ p ∈ updateFirstPost posts post_id platform f, p ∈ posts ∨ p = f q := by
  induction posts with
  | nil => intro p hp; cases hp
  | cons a rest ih =>
    intro p hp
    cases hm : (a.PostID == post_id && a.Platform == platform) with
    | true =>
      simp only [findPost, List.find?_cons, hm, Option.some.injEq] at hq
      simp only [updateFirstPost, hm, if_true] at hp
      rcases List.mem_cons.mp hp with h1 | h2
      · right; rw [h1, hq]
      · left; exact List.mem_cons_of_mem a h2
    | false =>
      simp only [findPost, List.find?_cons, hm] at hq
      simp only [updateFirstPost, hm, Bool.false_eq_true, if_false] at hp
      rcases List.mem_cons.mp hp with h1 | h2
      · left; rw [h1]; exact List.mem_cons_self a rest
      · rcases ih hq p h2 with h3 | h4
        · left; exact List.mem_cons_of_mem a h3
        · right; exact h4

theorem findPost_some_status (posts : List SocialMediaPost)
    (post_id platform : String) (q : SocialMediaPost)
    (hq : findPost posts post_id platform = some q) : q ∈ posts := by
  exact List.mem_of_find?_eq_some hq

/-- Claim C2: for every post whose `Status` is already `Published` or
`Cancelled`, invoking the timer-driven publish handler again makes no
platform-adapter call and leaves the whole post store unchanged; in
particular, running the handler twice on an already-`Published` post equals
running it once. -/
theorem publish_idempotent_on_terminal (posts : List SocialMediaPost)
    (post_id platform : String) (pa : Bool) (result : PubResult)
    (post : SocialMediaPost)
    (hfind : findPost posts post_id platform = some post)
    (hstat : post.Status = PostStatus.Published ∨ post.Status = PostStatus.Cancelled) :
    publishScheduledPost posts post_id platform pa result =
      ⟨posts, false, false⟩ ∧
    publishScheduledPost
        (publishScheduledPost posts post_id platform pa result).posts
        post_id platform pa result =
      ⟨(publishScheduledPost posts post_id platform pa result).posts,
        false, false⟩ := by
  have h1 : publishScheduledPost posts post_id platform pa result =
      ⟨posts, false, false⟩ := by
    unfold publishScheduledPost
    rw [hfind]
    rcases hstat with h | h <;> simp [h]
  refine ⟨h1, ?_⟩
  rw [h1]
  exact h1

/-- Witness for C2 at a concrete store: a `Published` post is left untouched. -/
theorem publish_idempotent_on_terminal_witness :
    publishScheduledPost [samplePublishedPost] "P1" "devto" true ⟨true, some "A2"⟩ =
      ⟨[samplePublishedPost], false, false⟩ :=
  (publish_idempotent_on_terminal [samplePublishedPost] "P1" "devto" true
    ⟨true, some "A2"⟩ samplePublishedPost (by decide) (Or.inl (by decide))).1

/-- Claim C10: invoking the publish handler for a `(post_id, platform)` pair
with no matching post in the store is a no-op: the store is unchanged, no
platform-adapter call is made and no monitoring is registered (the embedding
is a total function, so the handler returns without raising). -/
theorem publish_noop_when_post_missing (posts : List SocialMediaPost)
    (post_id platform : String) (pa : Bool) (result : PubResult)
    (hfind : findPost posts post_id platform = none) :
    publishScheduledPost posts post_id platform pa result = ⟨posts, false, false⟩ := by
  unfold publishScheduledPost
  rw [hfind]

/-- Witness for C10: an empty store. -/
theorem publish_noop_when_post_missing_witness :
    publishScheduledPost [] "P1" "devto" true ⟨true, some "A1"⟩ = ⟨[], false, false⟩ :=
  publish_noop_when_post_missing [] "P1" "devto" true ⟨true, some "A1"⟩ (by decide)

/-- Counterexample to C1 as stated: when the platform adapter reports success
but its result carries no post id (`result.get("post_id", None)` is `None`),
the publish handler sets `Status = Published` while leaving `PlatformPostID`
null, so `Status == Published ⇔ PlatformPostID != null` fails for that post. -/
theorem publish_breaks_postInv_on_missing_id :
    ∃ p, p ∈ (publishScheduledPost [mkScheduledPost "P1" "devto" 0 0 "c" "#e" "E1"]
                "P1" "devto" true ⟨true, none⟩).posts ∧
      p.Status = PostStatus.Published ∧ p.PlatformPostID = none := by
  refine ⟨{ mkScheduledPost "P1" "devto" 0 0 "c" "#e" "E1" with
              Status := PostStatus.Published, PlatformPostID := none }, ?_, rfl, rfl⟩
  decide

/-- Claim C1 (amended): provided every successful adapter result carries a
post id, the invariant `Status == Published ⇔ PlatformPostID != null` holds
for every post created by `schedule_post` and is preserved by the publish
handler: the handler is the only operation assigning `PlatformPostID`, and it
does so exactly when it sets `Status = Published`. -/
theorem postInv_preserved (posts : List SocialMediaPost)
    (post_id platform : String) (pa : Bool) (result : PubResult)
    (hinv : ∀ p ∈ posts, postInv p)
    (hid : result.success = true → result.post_id ≠ none) :
    (∀ pid pf d t c tag evid, postInv (mkScheduledPost pid pf d t c tag evid)) ∧
    (∀ p ∈ (publishScheduledPost posts post_id platform pa result).posts, postInv p) := by
  constructor
  · intro pid pf d t c tag evid
    simp [postInv, mkScheduledPost]
  · intro p hp
    rcases hf : findPost posts post_id platform with _ | q
    · rw [publish_noop_when_post_missing posts post_id platform pa result hf] at hp
      exact hinv p hp
    · have hqmem : q ∈ posts := findPost_some_status posts post_id platform q hf
      have hqinv : postInv q := hinv q hqmem
      unfold publishScheduledPost at hp
      rw [hf] at hp
      by_cases hpub : q.Status = PostStatus.Published
      · simp only [hpub, reduceIte] at hp
        exact hinv p hp
      · by_cases hcan : q.Status = PostStatus.Cancelled
        · simp only [hpub, hcan, reduceIte] at hp
          exact hinv p hp
        · have hq0 : q.PlatformPostID = none := by
            by_contra hne
            exact hpub (hqinv.mpr hne)
          by_cases hpa : pa = false
          · simp only [hpub, hcan, hpa, reduceIte] at hp
            exact hinv p hp
          · cases hsucc : result.success with
            | true =>
              simp only [hpub, hcan, hpa, hsucc, reduceIte] at hp
              rcases mem_updateFirstPost posts post_id platform _ q hf p hp with h1 | h2
              · exact hinv p h1
              · rw [h2]
                unfold postInv
                simp only [true_iff]
                exact hid hsucc
            | false =>
              simp only [hpub, hcan, hpa, hsucc, reduceIte] at hp
              rcases mem_updateFirstPost posts post_id platform _ q hf p hp with h1 | h2
              · exact hinv p h1
              · rw [h2]
                unfold postInv
                constructor
                · intro hcontra
                  exact absurd hcontra (by simp)
                · intro hne
                  exact absurd hq0 (by simpa using hne)

/-- Witness for C1 (amended): publishing a concrete scheduled post with an
adapter result that carries a post id keeps the invariant. -/
theorem postInv_preserved_witness :
    postInv { mkScheduledPost "P1" "devto" 0 0 "c" "#e" "E1" with
                Status := PostStatus.Published, PlatformPostID := some "A1" } :=
  (postInv_preserved [mkScheduledPost "P1" "devto" 0 0 "c" "#e" "E1"]
      "P1" "devto" true ⟨true, some "A1"⟩
      (by decide) (by intro _ h; simp at h)).2
    _ (by decide)

theorem findComment_some_mem (comments : List CommentRow) (cid : String)
    (r : CommentRow) (h : findComment comments cid = some r) : r ∈ comments :=
  List.mem_of_find?_eq_some h

theorem findComment_some_id (comments : List CommentRow) (cid : String)
    (r : CommentRow) (h : findComment comments cid = some r) : r.CommentID = cid := by
  have := List.find?_some h
  simpa using this

theorem mem_updateFirstComment (comments : List CommentRow) (cid : String)
    (f : CommentRow → CommentRow) (r : CommentRow)
    (hfind : findComment comments cid = some r) :
    ∀ x ∈ updateFirstComment comments cid f, x ∈ comments ∨ x = f r := by
  induction comments with
  | nil => intro x hx; cases hx
  | cons a rest ih =>
    intro x hx
    cases hm : a.CommentID == cid with
    | true =>
      have h' : a = r := by simpa [findComment, List.find?_cons, hm] using hfind
      subst h'
      simp only [updateFirstComment, hm, if_true] at hx
      rcases List.mem_cons.mp hx with h1 | h2
      · right; exact h1
      · left; exact List.mem_cons_of_mem a h2
    | false =>
      have h' : findComment rest cid = some r := by
        simpa [findComment, List.find?_cons, hm] using hfind
      simp only [updateFirstComment, hm, Bool.false_eq_true, if_false] at hx
      rcases List.mem_cons.mp hx with h1 | h2
      · left; rw [h1]; exact List.mem_cons_self a rest
      · rcases ih h' x h2 with h3 | h4
        · left; exact List.mem_cons_of_mem a h3
        · right; exact h4

theorem findComment_updateFirst_self (comments : List CommentRow) (cid : String)
    (f : CommentRow → CommentRow) (hf : ∀ x, (f x).CommentID = x.CommentID)
    (r : CommentRow) (h : findComment comments cid = some r) :
    findComment (updateFirstComment comments cid f) cid = some (f r) := by
  induction comments with
  | nil => cases h
  | cons a rest ih =>
    cases hm : a.CommentID == cid with
    | true =>
      have h' : a = r := by simpa [findComment, List.find?_cons, hm] using h
      subst h'
      simp [updateFirstComment, findComment, List.find?_cons, hm, hf a]
    | false =>
      have h' : findComment rest cid = some r := by
        simpa [findComment, List.find?_cons, hm] using h
      simpa [updateFirstComment, findComment, List.find?_cons, hm] using ih h'

theorem findComment_updateFirst_other (comments : List CommentRow)
    (cid cid0 : String) (f : CommentRow → CommentRow)
    (hf : ∀ x, (f x).CommentID = x.CommentID) (hne : cid ≠ cid0) :
    findComment (updateFirstComment comments cid f) cid0 =
      findComment comments cid0 := by
  induction comments with
  | nil => rfl
  | cons a rest ih =>
    cases hm : a.CommentID == cid with
    | true =>
      have haid : a.CommentID = cid := by simpa using hm
      have h0 : (a.CommentID == cid0) = false := by
        simp only [beq_eq_false_iff_ne, ne_eq, haid]
        exact hne
      have h0f : ((f a).CommentID == cid0) = false := by rw [hf a]; exact h0
      simp [updateFirstComment, findComment, List.find?_cons, hm, h0, h0f]
    | false =>
      cases h0 : a.CommentID == cid0 with
      | true => simp [updateFirstComment, findComment, List.find?_cons, hm, h0]
      | false =>
        simpa [updateFirstComment, findComment, List.find?_cons, hm, h0] using ih

theorem findComment_append_some (comments l : List CommentRow) (cid : String)
    (r : CommentRow) (h : findComment comments cid = some r) :
    findComment (comments ++ l) cid = some r := by
  induction comments with
  | nil => cases h
  | cons a rest ih =>
    cases hm : a.CommentID == cid with
    | true =>
      have h' : a = r := by simpa [findComment, List.find?_cons, hm] using h
      subst h'
      simp [findComment, List.find?_cons, hm]
    | false =>
      have h' : findComment rest cid = some r := by
        simpa [findComment, List.find?_cons, hm] using h
      simpa [findComment, List.find?_cons, hm] using ih h'

theorem findComment_append_ne (comments : List CommentRow) (row : CommentRow)
    (cid : String) (hne : row.CommentID ≠ cid) :
    findComment (comments ++ [row]) cid = findComment comments cid := by
  have hrow : (row.CommentID == cid) = false := by
    simpa [beq_eq_false_iff_ne] using hne
  induction comments with
  | nil => simp [findComment, List.find?_cons, hrow]
  | cons a rest ih =>
    cases hm : a.CommentID == cid with
    | true => simp [findComment, List.find?_cons, hm]
    | false => simpa [findComment, List.find?_cons, hm] using ih

theorem processComment_skip (clean : String → String) (comments : List CommentRow)
    (pid : String) (c : RawComment) (env : CommentEnv)
    (h : pyStrip c.comment_id = "" ∨ pyStrip (clean c.text) = "") :
    processComment clean comments pid c env = ⟨comments, false, false, false⟩ := by
  unfold processComment
  rcases h with h | h
  · simp [h]
  · by_cases h2 : pyStrip c.comment_id = ""
    · simp [h2]
    · simp [h2, h]

theorem processComment_responded (clean : String → String)
    (comments : List CommentRow) (pid : String) (c : RawComment) (env : CommentEnv)
    (r : CommentRow)
    (hid : ¬ pyStrip c.comment_id = "") (htext : ¬ pyStrip (clean c.text) = "")
    (hfind : findComment comments (pyStrip c.comment_id) = some r)
    (hr : r.ResponseStatus = RStatus.Responded) :
    processComment clean comments pid c env = ⟨comments, false, false, false⟩ := by
  unfold processComment
  simp [hid, htext, hfind, hr]

theorem processComment_escalate (clean : String → String)
    (comments : List CommentRow) (pid : String) (c : RawComment) (env : CommentEnv)
    (r : CommentRow)
    (hid : ¬ pyStrip c.comment_id = "") (htext : ¬ pyStrip (clean c.text) = "")
    (hfind : findComment comments (pyStrip c.comment_id) = some r)
    (hr : ¬ r.ResponseStatus = RStatus.Responded) (hrc : 3 ≤ r.RetryCount) :
    processComment clean comments pid c env =
      ⟨updateFirstComment comments (pyStrip c.comment_id)
          (fun x => { x with ResponseStatus := RStatus.Escalated }),
        false, false, false⟩ := by
  unfold processComment
  simp [hid, htext, hfind, hr, hrc]

theorem processComment_existing (clean : String → String)
    (comments : List CommentRow) (pid : String) (c : RawComment) (env : CommentEnv)
    (r : CommentRow)
    (hid : ¬ pyStrip c.comment_id = "") (htext : ¬ pyStrip (clean c.text) = "")
    (hfind : findComment comments (pyStrip c.comment_id) = some r)
    (hr : ¬ r.ResponseStatus = RStatus.Responded) (hrc : r.RetryCount < 3) :
    processComment clean comments pid c env =
      ⟨updateFirstComment comments (pyStrip c.comment_id)
          (fun x => { x with ResponseStatus := (commentOutcome env).1,
                             CommentText := clean c.text,
                             Timestamp := c.timestamp,
                             Class := some (env.classifyRes.getD "event-related"),
                             RetryCount := x.RetryCount + 1 }),
        true, true, (commentOutcome env).2⟩ := by
  unfold processComment
  simp [hid, htext, hfind, hr, Nat.not_le.mpr hrc]

theorem processComment_new (clean : String → String)
    (comments : List CommentRow) (pid : String) (c : RawComment) (env : CommentEnv)
    (hid : ¬ pyStrip c.comment_id = "") (htext : ¬ pyStrip (clean c.text) = "")
    (hfind : findComment comments (pyStrip c.comment_id) = none) :
    processComment clean comments pid c env =
      ⟨comments ++ [{ CommentID := pyStrip c.comment_id
                      PostID := pid
                      UserName := c.user_name
                      CommentText := clean c.text
                      Timestamp := c.timestamp
                      ResponseStatus := (commentOutcome env).1
                      Class := some (env.classifyRes.getD "event-related")
                      RetryCount := 1 }],
        true, true, (commentOutcome env).2⟩ := by
  unfold processComment
  simp [hid, htext, hfind]

/-- The generation/send block never produces `Escalated` (or `Pending`). -/
theorem commentOutcome_ne_escalated (env : CommentEnv) :
    (commentOutcome env).1 ≠ RStatus.Escalated := by
  unfold commentOutcome
  cases env.generateRes with
  | none => simp
  | some t => by_cases h : env.sendOk = true <;> simp [h]

theorem monitorStep_comments (clean : String → String) (pid : String)
    (ps : PassResult) (item : RawComment × CommentEnv) :
    (monitorStep clean pid ps item).comments =
      (processComment clean ps.comments pid item.1 item.2).comments := rfl

/-- Re-assigning an already-`Escalated` status is the identity on the row. -/
theorem setStatus_escalated_self (r : CommentRow)
    (h : r.ResponseStatus = RStatus.Escalated) :
    ({ r with ResponseStatus := RStatus.Escalated } : CommentRow) = r := by
  cases r
  simp_all

/-- Processing a raw comment whose trimmed id differs from `cid0` does not
change the row `findComment` yields at `cid0`. -/
theorem processComment_find_other (clean : String → String)
    (comments : List CommentRow) (pid : String) (c : RawComment) (env : CommentEnv)
    (cid0 : String) (hcc : pyStrip c.comment_id ≠ cid0) :
    findComment (processComment clean comments pid c env).comments cid0 =
      findComment comments cid0 := by
  by_cases hskip : pyStrip c.comment_id = "" ∨ pyStrip (clean c.text) = ""
  · rw [processComment_skip clean comments pid c env hskip]
  · push_neg at hskip
    obtain ⟨hid, htext⟩ := hskip
    rcases hf : findComment comments (pyStrip c.comment_id) with _ | ex
    · rw [processComment_new clean comments pid c env hid htext hf]
      exact findComment_append_ne comments _ cid0 hcc
    · by_cases hresp : ex.ResponseStatus = RStatus.Responded
      · rw [processComment_responded clean comments pid c env ex hid htext hf hresp]
      · by_cases hrc : 3 ≤ ex.RetryCount
        · rw [processComment_escalate clean comments pid c env ex hid htext hf hresp hrc]
          exact findComment_updateFirst_other comments _ cid0 _ (fun x => rfl) hcc
        · rw [processComment_existing clean comments pid c env ex hid htext hf hresp
            (Nat.lt_of_not_le hrc)]
          exact findComment_updateFirst_other comments _ cid0 _ (fun x => rfl) hcc

/-- Single-step evolution of the row at `cid0`: the retry count never
decreases, a terminal row (`Responded`, or `Escalated` with the invariant
bound) is untouched, and escalated rows keep `RetryCount >= 3`. -/
theorem processComment_effect (clean : String → String)
    (comments : List CommentRow) (pid : String) (c : RawComment) (env : CommentEnv)
    (cid0 : String) (r : CommentRow)
    (hfind : findComment comments cid0 = some r) :
    ∃ r', findComment (processComment clean comments pid c env).comments cid0 = some r' ∧
      r.RetryCount ≤ r'.RetryCount ∧
      ((r.ResponseStatus = RStatus.Responded ∨
        (r.ResponseStatus = RStatus.Escalated ∧ 3 ≤ r.RetryCount)) → r' = r) ∧
      ((r.ResponseStatus = RStatus.Escalated → 3 ≤ r.RetryCount) →
        (r'.ResponseStatus = RStatus.Escalated → 3 ≤ r'.RetryCount)) := by
  by_cases hcc : pyStrip c.comment_id = cid0
  · subst hcc
    by_cases hskip : pyStrip c.comment_id = "" ∨ pyStrip (clean c.text) = ""
    · refine ⟨r, ?_, le_refl _, fun _ => rfl, fun h => h⟩
      rw [processComment_skip clean comments pid c env hskip]
      exact hfind
    · push_neg at hskip
      obtain ⟨hid, htext⟩ := hskip
      by_cases hresp : r.ResponseStatus = RStatus.Responded
      · refine ⟨r, ?_, le_refl _, fun _ => rfl, fun h => h⟩
        rw [processComment_responded clean comments pid c env r hid htext hfind hresp]
        exact hfind
      · by_cases hrc : 3 ≤ r.RetryCount
        · refine ⟨{ r with ResponseStatus := RStatus.Escalated }, ?_, le_refl _, ?_, ?_⟩
          · rw [processComment_escalate clean comments pid c env r hid htext hfind hresp hrc]
            exact findComment_updateFirst_self comments (pyStrip c.comment_id)
              (fun x => { x with ResponseStatus := RStatus.Escalated })
              (fun x => rfl) r hfind
          · intro hterm
            rcases hterm with h1 | ⟨h2, _⟩
            · exact absurd h1 hresp
            · exact setStatus_escalated_self r h2
          · intro _ _
            exact hrc
        · have hlt : r.RetryCount < 3 := Nat.lt_of_not_le hrc
          refine ⟨{ r with
              ResponseStatus := (commentOutcome env).1
              CommentText := clean c.text
              Timestamp := c.timestamp
              Class := some (env.classifyRes.getD "event-related")
              RetryCount := r.RetryCount + 1 }, ?_, Nat.le_succ _, ?_, ?_⟩
          · rw [processComment_existing clean comments pid c env r hid htext hfind hresp hlt]
            exact findComment_updateFirst_self comments (pyStrip c.comment_id)
              (fun x => { x with
                  ResponseStatus := (commentOutcome env).1
                  CommentText := clean c.text
                  Timestamp := c.timestamp
                  Class := some (env.classifyRes.getD "event-related")
                  RetryCount := x.RetryCount + 1 })
              (fun x => rfl) r hfind
          · intro hterm
            rcases hterm with h1 | ⟨_, h3⟩
            · exact absurd h1 hresp
            · exact absurd h3 hrc
          · intro _ habs
            exact absurd habs (commentOutcome_ne_escalated env)
  · refine ⟨r, ?_, le_refl _, fun _ => rfl, fun h => h⟩
    rw [processComment_find_other clean comments pid c env cid0 hcc]
    exact hfind

/-- For a blocked row (already `Responded`, or `RetryCount >= 3`) the step
makes no classification, generation or send attempt, and the row stays
blocked. -/
theorem processComment_blocked_flags (clean : String → String)
    (comments : List CommentRow) (pid : String) (c : RawComment) (env : CommentEnv)
    (r : CommentRow)
    (hfind : findComment comments (pyStrip c.comment_id) = some r)
    (hblocked : r.ResponseStatus = RStatus.Responded ∨ 3 ≤ r.RetryCount) :
    (processComment clean comments pid c env).classifyCalled = false ∧
    (processComment clean comments pid c env).generateCalled = false ∧
    (processComment clean comments pid c env).sendCalled = false ∧
    ∃ r2, findComment (processComment clean comments pid c env).comments
            (pyStrip c.comment_id) = some r2 ∧
      (r2.ResponseStatus = RStatus.Responded ∨ 3 ≤ r2.RetryCount) := by
  by_cases hskip : pyStrip c.comment_id = "" ∨ pyStrip (clean c.text) = ""
  · rw [processComment_skip clean comments pid c env hskip]
    exact ⟨rfl, rfl, rfl, r, hfind, hblocked⟩
  · push_neg at hskip
    obtain ⟨hid, htext⟩ := hskip
    by_cases hresp : r.ResponseStatus = RStatus.Responded
    · rw [processComment_responded clean comments pid c env r hid htext hfind hresp]
      exact ⟨rfl, rfl, rfl, r, hfind, hblocked⟩
    · have hrc : 3 ≤ r.RetryCount := by
        rcases hblocked with h | h
        · exact absurd h hresp
        · exact h
      rw [processComment_escalate clean comments pid c env r hid htext hfind hresp hrc]
      refine ⟨rfl, rfl, rfl, { r with ResponseStatus := RStatus.Escalated }, ?_, Or.inr hrc⟩
      exact findComment_updateFirst_self comments (pyStrip c.comment_id)
        (fun x => { x with ResponseStatus := RStatus.Escalated }) (fun x => rfl) r hfind

/-- Single-step preservation of the escalation invariant. -/
theorem processComment_escInv (clean : String → String)
    (comments : List CommentRow) (pid : String) (c : RawComment) (env : CommentEnv)
    (hinv : escInv comments) :
    escInv (processComment clean comments pid c env).comments := by
  by_cases hskip : pyStrip c.comment_id = "" ∨ pyStrip (clean c.text) = ""
  · rw [processComment_skip clean comments pid c env hskip]
    exact hinv
  · push_neg at hskip
    obtain ⟨hid, htext⟩ := hskip
    rcases hf : findComment comments (pyStrip c.comment_id) with _ | ex
    · rw [processComment_new clean comments pid c env hid htext hf]
      intro x hx hesc
      rcases List.mem_append.mp hx with h1 | h2
      · exact hinv x h1 hesc
      · rw [List.mem_singleton.mp h2] at hesc
        exact absurd hesc (commentOutcome_ne_escalated env)
    · by_cases hresp : ex.ResponseStatus = RStatus.Responded
      · rw [processComment_responded clean comments pid c env ex hid htext hf hresp]
        exact hinv
      · by_cases hrc : 3 ≤ ex.RetryCount
        · rw [processComment_escalate clean comments pid c env ex hid htext hf hresp hrc]
          intro x hx hesc
          rcases mem_updateFirstComment comments _ _ ex hf x hx with h1 | h2
          · exact hinv x h1 hesc
          · rw [h2]
            exact hrc
        · rw [processComment_existing clean comments pid c env ex hid htext hf hresp
            (Nat.lt_of_not_le hrc)]
          intro x hx hesc
          rcases mem_updateFirstComment comments _ _ ex hf x hx with h1 | h2
          · exact hinv x h1 hesc
          · rw [h2] at hesc
            exact absurd hesc (commentOutcome_ne_escalated env)

theorem monitorFold_effect (clean : String → String) (pid : String) :
    ∀ (batch : List (RawComment × CommentEnv)) (ps : PassResult)
      (cid0 : String) (r : CommentRow),
      findComment ps.comments cid0 = some r →
      ∃ r', findComment (batch.foldl (monitorStep clean pid) ps).comments cid0 = some r' ∧
        r.RetryCount ≤ r'.RetryCount ∧
        ((r.ResponseStatus = RStatus.Responded ∨
          (r.ResponseStatus = RStatus.Escalated ∧ 3 ≤ r.RetryCount)) → r' = r) ∧
        ((r.ResponseStatus = RStatus.Escalated → 3 ≤ r.RetryCount) →
          (r'.ResponseStatus = RStatus.Escalated → 3 ≤ r'.RetryCount)) := by
  intro batch
  induction batch with
  | nil =>
    intro ps cid0 r hfind
    exact ⟨r, hfind, le_refl _, fun _ => rfl, fun h => h⟩
  | cons item rest ih =>
    intro ps cid0 r hfind
    rw [List.foldl_cons]
    have hstep := processComment_effect clean ps.comments pid item.1 item.2 cid0 r hfind
    obtain ⟨r1, hfind1, hrc1, hterm1, hesc1⟩ := hstep
    rw [← monitorStep_comments clean pid ps item] at hfind1
    obtain ⟨r', hfind', hrc', hterm', hesc'⟩ :=
      ih (monitorStep clean pid ps item) cid0 r1 hfind1
    refine ⟨r', hfind', le_trans hrc1 hrc', ?_, ?_⟩
    · intro hterm
      have h1 : r1 = r := hterm1 hterm
      rw [h1] at hterm'
      exact hterm' hterm
    · intro hA
      exact hesc' (hesc1 hA)

theorem monitorFold_escInv (clean : String → String) (pid : String) :
    ∀ (batch : List (RawComment × CommentEnv)) (ps : PassResult),
      escInv ps.comments →
      escInv (batch.foldl (monitorStep clean pid) ps).comments := by
  intro batch
  induction batch with
  | nil => intro ps h; exact h
  | cons item rest ih =>
    intro ps h
    rw [List.foldl_cons]
    apply ih
    rw [monitorStep_comments clean pid ps item]
    exact processComment_escInv clean ps.comments pid item.1 item.2 h

theorem not_mem_maybe_append {cid x : String} {l : List String}
    (h : cid ∉ l) (hne : x ≠ cid) (b : Bool) :
    cid ∉ (if b = true then l ++ [x] else l) := by
  cases b with
  | false => simpa using h
  | true =>
    simp only [if_pos rfl]
    intro hmem
    rcases List.mem_append.mp hmem with h1 | h2
    · exact h h1
    · exact hne (List.mem_singleton.mp h2).symm

theorem monitorFold_blocked (clean : String → String) (pid : String) :
    ∀ (batch : List (RawComment × CommentEnv)) (ps : PassResult)
      (cid : String) (r : CommentRow),
      findComment ps.comments cid = some r →
      (r.ResponseStatus = RStatus.Responded ∨ 3 ≤ r.RetryCount) →
      (cid ∉ ps.classified → cid ∉ (batch.foldl (monitorStep clean pid) ps).classified) ∧
      (cid ∉ ps.generated → cid ∉ (batch.foldl (monitorStep clean pid) ps).generated) ∧
      (cid ∉ ps.replied → cid ∉ (batch.foldl (monitorStep clean pid) ps).replied) := by
  intro batch
  induction batch with
  | nil =>
    intro ps cid r _ _
    exact ⟨fun h => h, fun h => h, fun h => h⟩
  | cons item rest ih =>
    intro ps cid r hfind hblocked
    rw [List.foldl_cons]
    by_cases hcc : pyStrip item.1.comment_id = cid
    · obtain ⟨hc1, hc2, hc3, r2, hfind2, hblocked2⟩ :=
        processComment_blocked_flags clean ps.comments pid item.1 item.2 r
          (by rw [hcc]; exact hfind) hblocked
      have hcl : (monitorStep clean pid ps item).classified = ps.classified := by
        simp [monitorStep, hc1]
      have hgen : (monitorStep clean pid ps item).generated = ps.generated := by
        simp [monitorStep, hc2]
      have hrep : (monitorStep clean pid ps item).replied = ps.replied := by
        simp [monitorStep, hc3]
      have hfind2' : findComment (monitorStep clean pid ps item).comments cid = some r2 := by
        rw [monitorStep_comments clean pid ps item, ← hcc]
        exact hfind2
      obtain ⟨i1, i2, i3⟩ := ih (monitorStep clean pid ps item) cid r2 hfind2' hblocked2
      refine ⟨fun h => i1 (hcl ▸ h), fun h => i2 (hgen ▸ h), fun h => i3 (hrep ▸ h)⟩
    · have hfind1 : findComment (monitorStep clean pid ps item).comments cid = some r := by
        rw [monitorStep_comments clean pid ps item]
        rw [processComment_find_other clean ps.comments pid item.1 item.2 cid hcc]
        exact hfind
      obtain ⟨i1, i2, i3⟩ := ih (monitorStep clean pid ps item) cid r hfind1 hblocked
      refine ⟨?_, ?_, ?_⟩
      · intro h
        exact i1 (not_mem_maybe_append h hcc _)
      · intro h
        exact i2 (not_mem_maybe_append h hcc _)
      · intro h
        exact i3 (not_mem_maybe_append h hcc _)

theorem monitorFold_escalates (clean : String → String) (pid : String) :
    ∀ (batch : List (RawComment × CommentEnv)) (ps : PassResult)
      (cid : String) (r : CommentRow),
      findComment ps.comments cid = some r →
      r.ResponseStatus ≠ RStatus.Responded → 3 ≤ r.RetryCount → cid ≠ "" →
      (∃ ce ∈ batch, pyStrip ce.1.comment_id = cid ∧ pyStrip (clean ce.1.text) ≠ "") →
      findComment (batch.foldl (monitorStep clean pid) ps).comments cid =
        some { r with ResponseStatus := RStatus.Escalated } := by
  intro batch
  induction batch with
  | nil =>
    intro ps cid r _ _ _ _ hw
    obtain ⟨ce, hce, _⟩ := hw
    cases hce
  | cons item rest ih =>
    intro ps cid r hfind hresp hrc hcid hw
    rw [List.foldl_cons]
    by_cases hc : pyStrip item.1.comment_id = cid ∧ pyStrip (clean item.1.text) ≠ ""
    · obtain ⟨hc1, hc2⟩ := hc
      have hid : ¬ pyStrip item.1.comment_id = "" := by rw [hc1]; exact hcid
      have hfind0 : findComment ps.comments (pyStrip item.1.comment_id) = some r := by
        rw [hc1]; exact hfind
      have hstep : findComment (monitorStep clean pid ps item).comments cid =
          some { r with ResponseStatus := RStatus.Escalated } := by
        rw [monitorStep_comments clean pid ps item]
        rw [processComment_escalate clean ps.comments pid item.1 item.2 r hid hc2
          hfind0 hresp hrc]
        rw [← hc1]
        exact findComment_updateFirst_self ps.comments (pyStrip item.1.comment_id)
          (fun x => { x with ResponseStatus := RStatus.Escalated }) (fun x => rfl) r hfind0
      obtain ⟨r', hfind', _, hterm', _⟩ :=
        monitorFold_effect clean pid rest (monitorStep clean pid ps item) cid
          { r with ResponseStatus := RStatus.Escalated } hstep
      have : r' = { r with ResponseStatus := RStatus.Escalated } :=
        hterm' (Or.inr ⟨rfl, hrc⟩)
      rw [this] at hfind'
      exact hfind'
    · have hkeep : findComment (monitorStep clean pid ps item).comments cid = some r := by
        rw [monitorStep_comments clean pid ps item]
        by_cases hcc : pyStrip item.1.comment_id = cid
        · have htext : pyStrip (clean item.1.text) = "" := by
            by_contra hne
            exact hc ⟨hcc, hne⟩
          rw [processComment_skip clean ps.comments pid item.1 item.2 (Or.inr htext)]
          exact hfind
        · rw [processComment_find_other clean ps.comments pid item.1 item.2 cid hcc]
          exact hfind
      have hw' : ∃ ce ∈ rest, pyStrip ce.1.comment_id = cid ∧ pyStrip (clean ce.1.text) ≠ "" := by
        obtain ⟨ce, hce, hA, hB⟩ := hw
        rcases List.mem_cons.mp hce with h1 | h2
        · rw [h1] at hA hB
          exact absurd ⟨hA, hB⟩ hc
        · exact ⟨ce, h2, hA, hB⟩
      exact ih (monitorStep clean pid ps item) cid r hkeep hresp hrc hcid hw'

/-- Evaluates `findComment` over an append when the left part has no match and the
appended row matches. -/
theorem findComment_append_self (comments : List CommentRow) (row : CommentRow)
    (cid : String) (hnone : findComment comments cid = none)
    (hrow : row.CommentID = cid) :
    findComment (comments ++ [row]) cid = some row := by
  induction comments with
  | nil =>
    simp [findComment, List.find?_cons, hrow]
  | cons a rest ih =>
    cases hm : a.CommentID == cid with
    | true =>
      simp only [findComment, List.find?_cons, hm] at hnone
      exact absurd hnone (Option.some_ne_none a)
    | false =>
      have h' : findComment rest cid = none := by
        simpa [findComment, List.find?_cons, hm] using hnone
      simpa [findComment, List.find?_cons, hm] using ih h'

/-- The status/send outcome of the generation-and-send block, as a function
of which external calls succeed. -/
theorem commentOutcome_spec (env : CommentEnv) :
    ((commentOutcome env).1 = RStatus.Responded ↔
      (env.generateRes.isSome = true ∧ env.sendOk = true)) ∧
    ((commentOutcome env).1 = RStatus.Failed ↔
      ¬ (env.generateRes.isSome = true ∧ env.sendOk = true)) ∧
    ((commentOutcome env).2 = true ↔ env.generateRes.isSome = true) := by
  unfold commentOutcome
  cases hg : env.generateRes with
  | none => simp [hg]
  | some t => cases hs : env.sendOk <;> simp [hg, hs]

/-- Counterexample to C3 as stated: a comment whose stored `RetryCount` is 3
but whose `ResponseStatus` is already `Responded` is skipped by the pass
(step 2 precedes the escalation check), so the pass does NOT set it to
`Escalated`. -/
theorem retry_cap_counterexample :
    3 ≤ respondedRow3.RetryCount ∧
    findComment (monitorComments (fun s => s) [respondedRow3] "P1"
        [(sampleRaw, sampleEnv)]).comments "c1" = some respondedRow3 ∧
    respondedRow3.ResponseStatus ≠ RStatus.Escalated := by
  refine ⟨by decide, by decide, by decide⟩

/-- Claim C3 (amended): for every comment whose stored `RetryCount` is at
least 3 and whose `ResponseStatus` is not `Responded` at the start of a poll
pass, the pass makes no classification, generation or reply-send attempt for
it, and — whenever the fetched batch contains a matching raw comment that
passes validation — sets its `ResponseStatus` to `Escalated`; hence a comment
that failed on each of its first three polls is escalated on the fourth and
never resent. -/
theorem retry_cap_escalates (clean : String → String)
    (comments : List CommentRow) (pid : String)
    (batch : List (RawComment × CommentEnv)) (cid : String) (r : CommentRow)
    (hfind : findComment comments cid = some r)
    (hrc : 3 ≤ r.RetryCount)
    (hresp : r.ResponseStatus ≠ RStatus.Responded)
    (hcid : cid ≠ "") :
    (cid ∉ (monitorComments clean comments pid batch).classified ∧
     cid ∉ (monitorComments clean comments pid batch).generated ∧
     cid ∉ (monitorComments clean comments pid batch).replied) ∧
    ((∃ ce ∈ batch, pyStrip ce.1.comment_id = cid ∧ pyStrip (clean ce.1.text) ≠ "") →
      findComment (monitorComments clean comments pid batch).comments cid =
        some { r with ResponseStatus := RStatus.Escalated }) := by
  constructor
  · obtain ⟨b1, b2, b3⟩ := monitorFold_blocked clean pid batch ⟨comments, [], [], []⟩
      cid r hfind (Or.inr hrc)
    exact ⟨b1 (List.not_mem_nil cid), b2 (List.not_mem_nil cid), b3 (List.not_mem_nil cid)⟩
  · intro hw
    exact monitorFold_escalates clean pid batch ⟨comments, [], [], []⟩ cid r hfind
      hresp hrc hcid hw

/-- Witness for C3 (amended): a concrete `Failed` comment with
`RetryCount = 3` appearing in the batch is escalated by the pass. -/
theorem retry_cap_escalates_witness :
    findComment (monitorComments (fun s => s) [failedRow3] "P1"
        [(sampleRaw, sampleEnv)]).comments "c1" =
      some { failedRow3 with ResponseStatus := RStatus.Escalated } :=
  (retry_cap_escalates (fun s => s) [failedRow3] "P1" [(sampleRaw, sampleEnv)]
      "c1" failedRow3 (by decide) (by decide) (by decide) (by decide)).2
    ⟨(sampleRaw, sampleEnv), by decide, by decide, by decide⟩

/-- Multi-pass induction core for C5, generalised over the accumulated
state. -/
theorem runPasses_aux (clean : String → String) :
    ∀ (passes : List (String × List (RawComment × CommentEnv)))
      (st : List CommentRow × List String) (cid : String) (r : CommentRow),
      escInv st.1 → findComment st.1 cid = some r →
      escInv (passes.foldl (fun acc pr =>
          ((monitorComments clean acc.1 pr.1 pr.2).comments,
            acc.2 ++ (monitorComments clean acc.1 pr.1 pr.2).replied)) st).1 ∧
      (∃ r', findComment (passes.foldl (fun acc pr =>
          ((monitorComments clean acc.1 pr.1 pr.2).comments,
            acc.2 ++ (monitorComments clean acc.1 pr.1 pr.2).replied)) st).1 cid =
            some r' ∧ r.RetryCount ≤ r'.RetryCount) ∧
      ((r.ResponseStatus = RStatus.Responded ∨ r.ResponseStatus = RStatus.Escalated) →
        findComment (passes.foldl (fun acc pr =>
          ((monitorComments clean acc.1 pr.1 pr.2).comments,
            acc.2 ++ (monitorComments clean acc.1 pr.1 pr.2).replied)) st).1 cid =
          some r ∧
        (cid ∉ st.2 → cid ∉ (passes.foldl (fun acc pr =>
          ((monitorComments clean acc.1 pr.1 pr.2).comments,
            acc.2 ++ (monitorComments clean acc.1 pr.1 pr.2).replied)) st).2)) := by
  intro passes
  induction passes with
  | nil =>
    intro st cid r hinv hfind
    exact ⟨hinv, ⟨r, hfind, le_refl _⟩, fun _ => ⟨hfind, fun h => h⟩⟩
  | cons pr rest ih =>
    intro st cid r hinv hfind
    rw [List.foldl_cons]
    have hrmem : r ∈ st.1 := findComment_some_mem st.1 cid r hfind
    have hterm3 : r.ResponseStatus = RStatus.Escalated → 3 ≤ r.RetryCount :=
      fun h => hinv r hrmem h
    have hinv1 : escInv (monitorComments clean st.1 pr.1 pr.2).comments :=
      monitorFold_escInv clean pr.1 pr.2 ⟨st.1, [], [], []⟩ hinv
    obtain ⟨r1, hfind1, hrc1, hstay1, _⟩ :=
      monitorFold_effect clean pr.1 pr.2 ⟨st.1, [], [], []⟩ cid r hfind
    obtain ⟨ihinv, ⟨r', hfind', hrc'⟩, ihterm⟩ :=
      ih ((monitorComments clean st.1 pr.1 pr.2).comments,
          st.2 ++ (monitorComments clean st.1 pr.1 pr.2).replied) cid r1 hinv1 hfind1
    refine ⟨ihinv, ⟨r', hfind', le_trans hrc1 hrc'⟩, ?_⟩
    intro hterm
    have hstay : r1 = r := by
      apply hstay1
      rcases hterm with h | h
      · exact Or.inl h
      · exact Or.inr ⟨h, hterm3 h⟩
    rw [hstay] at ihterm
    obtain ⟨hfix, hrep⟩ := ihterm hterm
    refine ⟨hfix, ?_⟩
    intro hnotmem
    apply hrep
    intro hmem
    rcases List.mem_append.mp hmem with h1 | h2
    · exact hnotmem h1
    · have hblocked : r.ResponseStatus = RStatus.Responded ∨ 3 ≤ r.RetryCount := by
        rcases hterm with h | h
        · exact Or.inl h
        · exact Or.inr (hterm3 h)
      obtain ⟨_, _, b3⟩ := monitorFold_blocked clean pr.1 pr.2 ⟨st.1, [], [], []⟩
        cid r hfind hblocked
      exact b3 (List.not_mem_nil cid) h2

/-- Claim C5: across any sequence of poll passes, a stored comment's
`RetryCount` never decreases, and once its `ResponseStatus` is `Responded`
or `Escalated` no later pass changes any field of the row or sends a reply
to it. The hypothesis `escInv` (escalated rows have `RetryCount >= 3`) holds
in every reachable store and is itself preserved. -/
theorem comment_monotone_terminal (clean : String → String)
    (comments : List CommentRow)
    (passes : List (String × List (RawComment × CommentEnv)))
    (cid : String) (r : CommentRow)
    (hinv : escInv comments)
    (hfind : findComment comments cid = some r) :
    escInv (runPasses clean comments passes).1 ∧
    (∃ r', findComment (runPasses clean comments passes).1 cid = some r' ∧
      r.RetryCount ≤ r'.RetryCount) ∧
    ((r.ResponseStatus = RStatus.Responded ∨ r.ResponseStatus = RStatus.Escalated) →
      findComment (runPasses clean comments passes).1 cid = some r ∧
      cid ∉ (runPasses clean comments passes).2) := by
  obtain ⟨h1, h2, h3⟩ := runPasses_aux clean passes (comments, []) cid r hinv hfind
  refine ⟨h1, h2, ?_⟩
  intro hterm
  obtain ⟨ha, hb⟩ := h3 hterm
  exact ⟨ha, hb (List.not_mem_nil cid)⟩

/-- Witness for C5: a concrete `Responded` row survives a pass unchanged and
receives no reply. -/
theorem comment_monotone_terminal_witness :
    findComment (runPasses (fun s => s) [respondedRow3]
        [("P1", [(sampleRaw, sampleEnv)])]).1 "c1" = some respondedRow3 ∧
    "c1" ∉ (runPasses (fun s => s) [respondedRow3]
        [("P1", [(sampleRaw, sampleEnv)])]).2 :=
  (comment_monotone_terminal (fun s => s) [respondedRow3]
      [("P1", [(sampleRaw, sampleEnv)])] "c1" respondedRow3
      (by decide) (by decide)).2.2 (Or.inl (by decide))

/-- Counterexample to C4 as stated: a classification failure does not mark
the comment `Failed`. Here the classifier result is `none` (exception), yet
generation and send succeed, and the stored row ends `Responded` with the
fallback classification `"event-related"`. -/
theorem comment_failure_counterexample :
    (processComment (fun s => s) [] "P1" ⟨"c1", "hello", "u", 1⟩
        ⟨none, some "resp", true⟩).comments =
      [⟨"c1", "P1", "u", "hello", 1, RStatus.Responded, some "event-related", 1⟩] := by
  decide

/-- Claim C4 (amended): for every comment processed in a poll pass, the
stored `ResponseStatus` is `Responded` exactly when response generation and
the reply send both succeed, and `Failed` otherwise; a classification
failure alone does not produce `Failed` (the code falls back to the default
label `"event-related"` and continues); a reply send is attempted only when
generation succeeded. -/
theorem comment_failure_marking (clean : String → String)
    (comments : List CommentRow) (pid : String) (c : RawComment) (env : CommentEnv)
    (hid : ¬ pyStrip c.comment_id = "") (htext : ¬ pyStrip (clean c.text) = "") :
    (findComment comments (pyStrip c.comment_id) = none →
      ∃ r', findComment (processComment clean comments pid c env).comments
              (pyStrip c.comment_id) = some r' ∧
        (r'.ResponseStatus = RStatus.Responded ↔
          (env.generateRes.isSome = true ∧ env.sendOk = true)) ∧
        (r'.ResponseStatus = RStatus.Failed ↔
          ¬ (env.generateRes.isSome = true ∧ env.sendOk = true))) ∧
    (∀ r, findComment comments (pyStrip c.comment_id) = some r →
      r.ResponseStatus ≠ RStatus.Responded → r.RetryCount < 3 →
      ∃ r', findComment (processComment clean comments pid c env).comments
              (pyStrip c.comment_id) = some r' ∧
        (r'.ResponseStatus = RStatus.Responded ↔
          (env.generateRes.isSome = true ∧ env.sendOk = true)) ∧
        (r'.ResponseStatus = RStatus.Failed ↔
          ¬ (env.generateRes.isSome = true ∧ env.sendOk = true))) ∧
    ((processComment clean comments pid c env).sendCalled = true →
      env.generateRes.isSome = true) := by
  obtain ⟨ho1, ho2, ho3⟩ := commentOutcome_spec env
  refine ⟨?_, ?_, ?_⟩
  · intro hnone
    rw [processComment_new clean comments pid c env hid htext hnone]
    refine ⟨{ CommentID := pyStrip c.comment_id
              PostID := pid
              UserName := c.user_name
              CommentText := clean c.text
              Timestamp := c.timestamp
              ResponseStatus := (commentOutcome env).1
              Class := some (env.classifyRes.getD "event-related")
              RetryCount := 1 }, ?_, ho1, ho2⟩
    exact findComment_append_self comments _ (pyStrip c.comment_id) hnone rfl
  · intro r hfind hresp hrc
    rw [processComment_existing clean comments pid c env r hid htext hfind hresp hrc]
    refine ⟨{ r with ResponseStatus := (commentOutcome env).1
                     CommentText := clean c.text
                     Timestamp := c.timestamp
                     Class := some (env.classifyRes.getD "event-related")
                     RetryCount := r.RetryCount + 1 }, ?_, ho1, ho2⟩
    exact findComment_updateFirst_self comments (pyStrip c.comment_id)
      (fun x => { x with ResponseStatus := (commentOutcome env).1
                         CommentText := clean c.text
                         Timestamp := c.timestamp
                         Class := some (env.classifyRes.getD "event-related")
                         RetryCount := x.RetryCount + 1 })
      (fun x => rfl) r hfind
  · intro hsend
    by_cases hskip : pyStrip c.comment_id = "" ∨ pyStrip (clean c.text) = ""
    · rw [processComment_skip clean comments pid c env hskip] at hsend
      cases hsend
    · push_neg at hskip
      obtain ⟨hid2, htext2⟩ := hskip
      rcases hf : findComment comments (pyStrip c.comment_id) with _ | ex
      · rw [processComment_new clean comments pid c env hid2 htext2 hf] at hsend
        exact ho3.mp hsend
      · by_cases hresp : ex.ResponseStatus = RStatus.Responded
        · rw [processComment_responded clean comments pid c env ex hid2 htext2 hf hresp]
            at hsend
          cases hsend
        · by_cases hrc : 3 ≤ ex.RetryCount
          · rw [processComment_escalate clean comments pid c env ex hid2 htext2 hf
              hresp hrc] at hsend
            cases hsend
          · rw [processComment_existing clean comments pid c env ex hid2 htext2 hf
              hresp (Nat.lt_of_not_le hrc)] at hsend
            exact ho3.mp hsend

/-- Witness for C4 (amended): a new comment whose generation fails ends
`Failed`. -/
theorem comment_failure_marking_witness :
    ∃ r', findComment (processComment (fun s => s) [] "P1" ⟨"c1", "hello", "u", 1⟩
            ⟨some "event-related", none, true⟩).comments (pyStrip "c1") = some r' ∧
      (r'.ResponseStatus = RStatus.Responded ↔
        ((⟨some "event-related", none, true⟩ : CommentEnv).generateRes.isSome = true ∧
          (⟨some "event-related", none, true⟩ : CommentEnv).sendOk = true)) ∧
      (r'.ResponseStatus = RStatus.Failed ↔
        ¬ (((⟨some "event-related", none, true⟩ : CommentEnv).generateRes.isSome = true) ∧
          (⟨some "event-related", none, true⟩ : CommentEnv).sendOk = true)) :=
  (comment_failure_marking (fun s => s) [] "P1" ⟨"c1", "hello", "u", 1⟩
      ⟨some "event-related", none, true⟩ (by decide) (by decide)).1 (by decide)

/-- Setting the run date of the matched job makes it the stored run date. -/
theorem lookupJob_map_set (timers : List (String × Int × Int)) (job_id : String)
    (d t : Int) (hany : timers.any (fun j => j.1 == job_id) = true) :
    lookupJob (timers.map (fun j => if j.1 == job_id then (job_id, d, t) else j))
      job_id = some (d, t) := by
  induction timers with
  | nil => cases hany
  | cons j rest ih =>
    cases hm : j.1 == job_id with
    | true =>
      rw [List.map_cons, if_pos hm]
      unfold lookupJob
      rw [List.find?_cons]
      have hself : ((job_id, d, t).1 == job_id) = true := beq_self_eq_true job_id
      rw [hself]
      rfl
    | false =>
      have hrest : rest.any (fun j => j.1 == job_id) = true := by
        rcases List.any_eq_true.mp hany with ⟨x, hx, hxx⟩
        rcases List.mem_cons.mp hx with h1 | h2
        · rw [h1] at hxx; rw [hxx] at hm; cases hm
        · exact List.any_eq_true.mpr ⟨x, h2, hxx⟩
      rw [List.map_cons, if_neg (by simp [hm])]
      unfold lookupJob at ih ⊢
      rw [List.find?_cons, hm]
      exact ih hrest

/-- A successful reschedule stores exactly the new run date under the job id. -/
theorem lookupJob_rescheduleJob (timers : List (String × Int × Int))
    (job_id : String) (d t : Int) (timers2 : List (String × Int × Int))
    (h : rescheduleJob timers job_id d t = some timers2) :
    lookupJob timers2 job_id = some (d, t) := by
  unfold rescheduleJob at h
  by_cases hany : timers.any (fun j => j.1 == job_id) = true
  · rw [if_pos hany] at h
    obtain rfl : (timers.map (fun j => if j.1 == job_id then (job_id, d, t) else j)) =
        timers2 := by simpa using h
    exact lookupJob_map_set timers job_id d t hany
  · rw [if_neg hany] at h
    cases h

/-- Claim C8: editing succeeds only while `Status == "Scheduled"` — for any
combination of new content and new time, when no scheduled post with the id
exists the call returns an error and changes neither the post store nor the
timers, and any successful edit found a `Scheduled` post.  A successful edit
with a new time updates only the content and/or the scheduled date/time of
the fetched post, re-registers the one-shot timer to the new time, and
leaves `Status` and every other field unchanged; a successful content-only
edit (no new time) leaves the timers and every field except the content
unchanged. -/
theorem edit_scheduled_only (posts : List SocialMediaPost)
    (timers : List (String × Int × Int)) (post_id : String)
    (new_content : Option String) (new_time : Option (Int × Int))
    (dt : Int × Int) (post : SocialMediaPost)
    (timers2 : List (String × Int × Int)) :
    (findScheduledPost posts post_id = none →
      editScheduledPost posts timers post_id new_content new_time =
        ⟨posts, timers, false⟩) ∧
    ((editScheduledPost posts timers post_id new_content new_time).success = true →
      ∃ q, findScheduledPost posts post_id = some q ∧ q.Status = PostStatus.Scheduled) ∧
    (findScheduledPost posts post_id = some post →
      rescheduleJob timers (publishJobId post_id post.Platform) dt.1 dt.2 =
        some timers2 →
      editScheduledPost posts timers post_id new_content (some dt) =
        ⟨updateFirstScheduledPost posts post_id (applyEdit new_content (some dt)),
          timers2, true⟩ ∧
      lookupJob timers2 (publishJobId post_id post.Platform) = some dt ∧
      (applyEdit new_content (some dt) post).Status = post.Status ∧
      (applyEdit new_content (some dt) post).PostID = post.PostID ∧
      (applyEdit new_content (some dt) post).Platform = post.Platform ∧
      (applyEdit new_content (some dt) post).CampaignTag = post.CampaignTag ∧
      (applyEdit new_content (some dt) post).EventID = post.EventID ∧
      (applyEdit new_content (some dt) post).PlatformPostID = post.PlatformPostID ∧
      (applyEdit new_content (some dt) post).PostDate = dt.1 ∧
      (applyEdit new_content (some dt) post).PostTime = dt.2) ∧
    (findScheduledPost posts post_id = some post →
      editScheduledPost posts timers post_id new_content none =
        ⟨updateFirstScheduledPost posts post_id (applyEdit new_content none),
          timers, true⟩ ∧
      (applyEdit new_content none post).Status = post.Status ∧
      (applyEdit new_content none post).PostID = post.PostID ∧
      (applyEdit new_content none post).Platform = post.Platform ∧
      (applyEdit new_content none post).CampaignTag = post.CampaignTag ∧
      (applyEdit new_content none post).EventID = post.EventID ∧
      (applyEdit new_content none post).PlatformPostID = post.PlatformPostID ∧
      (applyEdit new_content none post).PostDate = post.PostDate ∧
      (applyEdit new_content none post).PostTime = post.PostTime) := by
  refine ⟨?_, ?_, ?_, ?_⟩
  · intro hnone
    unfold editScheduledPost
    rw [hnone]
  · intro hsucc
    rcases hf : findScheduledPost posts post_id with _ | q
    · unfold editScheduledPost at hsucc
      rw [hf] at hsucc
      cases hsucc
    · have hq := List.find?_some hf
      simp only [Bool.and_eq_true, beq_iff_eq] at hq
      exact ⟨q, rfl, hq.2⟩
  · intro hfind hres
    have hframe :
        (applyEdit new_content (some dt) post).Status = post.Status ∧
        (applyEdit new_content (some dt) post).PostID = post.PostID ∧
        (applyEdit new_content (some dt) post).Platform = post.Platform ∧
        (applyEdit new_content (some dt) post).CampaignTag = post.CampaignTag ∧
        (applyEdit new_content (some dt) post).EventID = post.EventID ∧
        (applyEdit new_content (some dt) post).PlatformPostID = post.PlatformPostID ∧
        (applyEdit new_content (some dt) post).PostDate = dt.1 ∧
        (applyEdit new_content (some dt) post).PostTime = dt.2 := by
      unfold applyEdit
      rcases new_content with _ | s
      · simp
      · by_cases hs : s ≠ "" <;> simp [hs]
    refine ⟨?_, lookupJob_rescheduleJob timers _ dt.1 dt.2 timers2 hres, hframe.1,
      hframe.2.1, hframe.2.2.1, hframe.2.2.2.1, hframe.2.2.2.2.1,
      hframe.2.2.2.2.2.1, hframe.2.2.2.2.2.2.1, hframe.2.2.2.2.2.2.2⟩
    simp [editScheduledPost, hfind, hres]
  · intro hfind
    have hframe :
        (applyEdit new_content none post).Status = post.Status ∧
        (applyEdit new_content none post).PostID = post.PostID ∧
        (applyEdit new_content none post).Platform = post.Platform ∧
        (applyEdit new_content none post).CampaignTag = post.CampaignTag ∧
        (applyEdit new_content none post).EventID = post.EventID ∧
        (applyEdit new_content none post).PlatformPostID = post.PlatformPostID ∧
        (applyEdit new_content none post).PostDate = post.PostDate ∧
        (applyEdit new_content none post).PostTime = post.PostTime := by
      unfold applyEdit
      rcases new_content with _ | s
      · simp
      · by_cases hs : s ≠ "" <;> simp [hs]
    refine ⟨?_, hframe.1, hframe.2.1, hframe.2.2.1, hframe.2.2.2.1,
      hframe.2.2.2.2.1, hframe.2.2.2.2.2.1, hframe.2.2.2.2.2.2.1,
      hframe.2.2.2.2.2.2.2⟩
    simp [editScheduledPost, hfind]

/-- Witness for C8: a concrete scheduled post edited to a new time, and the
same post given a content-only edit that leaves the timer store untouched. -/
theorem edit_scheduled_only_witness :
    (editScheduledPost [mkScheduledPost "P1" "devto" 0 0 "c" "#e" "E1"]
        [(publishJobId "P1" "devto", 0, 0)] "P1" (some "c2") (some (5, 6)) =
      ⟨updateFirstScheduledPost [mkScheduledPost "P1" "devto" 0 0 "c" "#e" "E1"]
          "P1" (applyEdit (some "c2") (some (5, 6))),
        [(publishJobId "P1" "devto", 5, 6)], true⟩) ∧
    (editScheduledPost [mkScheduledPost "P1" "devto" 0 0 "c" "#e" "E1"]
        [(publishJobId "P1" "devto", 0, 0)] "P1" (some "c2") none =
      ⟨updateFirstScheduledPost [mkScheduledPost "P1" "devto" 0 0 "c" "#e" "E1"]
          "P1" (applyEdit (some "c2") none),
        [(publishJobId "P1" "devto", 0, 0)], true⟩) :=
  ⟨((edit_scheduled_only [mkScheduledPost "P1" "devto" 0 0 "c" "#e" "E1"]
      [(publishJobId "P1" "devto", 0, 0)] "P1" (some "c2") (some (5, 6)) (5, 6)
      (mkScheduledPost "P1" "devto" 0 0 "c" "#e" "E1")
      [(publishJobId "P1" "devto", 5, 6)]).2.2.1 (by decide) (by decide)).1,
   ((edit_scheduled_only [mkScheduledPost "P1" "devto" 0 0 "c" "#e" "E1"]
      [(publishJobId "P1" "devto", 0, 0)] "P1" (some "c2") none (5, 6)
      (mkScheduledPost "P1" "devto" 0 0 "c" "#e" "E1")
      [(publishJobId "P1" "devto", 5, 6)]).2.2.2 (by decide)).1⟩

/-- Counterexample to C6 as stated: (a) an event 100 days in the past still
receives the +30 "this week" bonus, because the code tests
`(event_date - today).days <= 7`, which every past date satisfies; (b) an
event 10 days in the future receives the +5 recency bonus, because
`(today - event_date).days <= 30` holds for every future date. The claim's
formula gives 0 in both cases. -/
theorem fuzzy_score_counterexample :
    scoreEvent "this week" 1000 ⟨"E1", "x", "", some 900⟩ = 30 ∧
    specScoreEvent "this week" 1000 ⟨"E1", "x", "", some 900⟩ = 0 ∧
    scoreEvent "zzzz" 1000 ⟨"E1", "x", "", some 1010⟩ = 5 ∧
    specScoreEvent "zzzz" 1000 ⟨"E1", "x", "", some 1010⟩ = 0 := by
  refine ⟨by decide, by decide, by decide, by decide⟩

/-- Claim C6 (amended): the fuzzy-match score equals the sum of the bonus
terms with the date conditions the code actually implements: the "this
week" +30 applies whenever the event date is at most 7 days in the future
(all past events included), and the +5 recency bonus applies whenever the
event date is at least 30 days before the current date (all future events
included); the three relative-date bonuses are mutually exclusive, first
match wins. -/
theorem fuzzy_score_formula (user_lower : String) (current_date : Int) (e : EventC) :
    scoreEvent user_lower current_date e =
      amendedScoreEvent user_lower current_date e := by
  unfold scoreEvent amendedScoreEvent titleBonus titleWordBonus descrBonus
    dateRelevanceBonus recencyBonus
  cases e.Date with
  | none => rfl
  | some d =>
    have h1 : (d - current_date ≤ 7) ↔ (d ≤ current_date + 7) := by omega
    have h2 : (current_date - d ≤ 30) ↔ (current_date - 30 ≤ d) := by omega
    simp only [h1, h2]

/-- The first-maximum left fold: the result splits the list into a strict
prefix (strictly smaller keys) and a suffix (no larger keys). -/
theorem foldl_firstMax_decomp {α β : Type} [LinearOrder β] (key : α → β) :
    ∀ (xs : List α) (x : α),
      ∃ l₁ l₂,
        x :: xs = l₁ ++ (xs.foldl (fun b y => if key b < key y then y else b) x) :: l₂ ∧
        (∀ y ∈ l₁, key y < key (xs.foldl (fun b y => if key b < key y then y else b) x)) ∧
        (∀ y ∈ l₂, key y ≤ key (xs.foldl (fun b y => if key b < key y then y else b) x)) := by
  intro xs
  induction xs with
  | nil =>
    intro x
    exact ⟨[], [], rfl, by simp, by simp⟩
  | cons y ys ih =>
    intro x
    rw [List.foldl_cons]
    by_cases hlt : key x < key y
    · rw [if_pos hlt]
      obtain ⟨l₁, l₂, hdec, hpre, hsuf⟩ := ih y
      refine ⟨x :: l₁, l₂, ?_, ?_, hsuf⟩
      · rw [List.cons_append, ← hdec]
      · intro z hz
        rcases List.mem_cons.mp hz with h1 | h2
        · subst h1
          cases l₁ with
          | nil =>
            simp only [List.nil_append] at hdec
            have hyb : y = ys.foldl (fun b y => if key b < key y then y else b) y := by
              injection hdec with ha _
            exact lt_of_lt_of_le hlt (le_of_eq (congrArg key hyb))
          | cons w l₁x =>
            simp only [List.cons_append] at hdec
            have hyw : y = w := by injection hdec with ha _
            have hwb := hpre w (List.mem_cons_self w l₁x)
            exact lt_trans (hyw ▸ hlt) hwb
        · exact hpre z h2
    · rw [if_neg hlt]
      have hyx : key y ≤ key x := le_of_not_lt hlt
      obtain ⟨l₁, l₂, hdec, hpre, hsuf⟩ := ih x
      cases l₁ with
      | nil =>
        simp only [List.nil_append] at hdec
        have hxb : x = ys.foldl (fun b y => if key b < key y then y else b) x := by
          injection hdec with ha _
        have hys : ys = l₂ := by injection hdec with _ hb
        refine ⟨[], y :: ys, ?_, by simp, ?_⟩
        · simp only [List.nil_append, ← hxb]
        · intro z hz
          rcases List.mem_cons.mp hz with h1 | h2
          · subst h1
            exact le_trans hyx (le_of_eq (congrArg key hxb))
          · rw [hys] at h2
            exact hsuf z h2
      | cons w l₁x =>
        simp only [List.cons_append] at hdec
        have hxw : x = w := by injection hdec with ha _
        have hys : ys = l₁x ++ (ys.foldl (fun b y => if key b < key y then y else b) x) :: l₂ := by
          injection hdec with _ hb
        refine ⟨x :: y :: l₁x, l₂, ?_, ?_, hsuf⟩
        · rw [List.cons_append, List.cons_append, ← hys]
        · intro z hz
          have hxb : key x < key (ys.foldl (fun b y => if key b < key y then y else b) x) := by
            have := hpre w (List.mem_cons_self w l₁x)
            rw [← hxw] at this
            exact this
          rcases List.mem_cons.mp hz with h1 | h2
          · subst h1
            exact hxb
          · rcases List.mem_cons.mp h2 with h3 | h4
            · subst h3
              exact lt_of_le_of_lt hyx hxb
            · exact hpre z (List.mem_cons_of_mem w h4)

/-- Specialisation of the first-maximum decomposition to scored pairs. -/
theorem pickBestScored_decomp (ps : List (EventC × Nat)) (x : EventC × Nat) :
    ∃ l₁ l₂, x :: ps = l₁ ++ (ps.foldl (fun b y => if b.2 < y.2 then y else b) x) :: l₂ ∧
      (∀ y ∈ l₁, y.2 < (ps.foldl (fun b y => if b.2 < y.2 then y else b) x).2) ∧
      (∀ y ∈ l₂, y.2 ≤ (ps.foldl (fun b y => if b.2 < y.2 then y else b) x).2) :=
  foldl_firstMax_decomp (fun p => p.2) ps x

/-- Specialisation of the first-maximum decomposition to event dates. -/
theorem mostRecent_decomp (es : List EventC) (x : EventC) :
    ∃ l₁ l₂, x :: es = l₁ ++
        (es.foldl (fun b y => if getEventDate b < getEventDate y then y else b) x) :: l₂ ∧
      (∀ y ∈ l₁, getEventDate y <
        getEventDate (es.foldl (fun b y => if getEventDate b < getEventDate y then y else b) x)) ∧
      (∀ y ∈ l₂, getEventDate y ≤
        getEventDate (es.foldl (fun b y => if getEventDate b < getEventDate y then y else b) x)) :=
  foldl_firstMax_decomp getEventDate es x

/-- Counterexample to C7 as stated: the resolver breaks score ties by
*input order* (Python's stable sort), not by most-recent event date. With
two equally-scoring candidates, the older one listed first is returned,
although the second has the same score and a later date. -/
theorem fuzzy_tie_break_counterexample :
    (fuzzyEventMatch "alphabet conference" 1000 [evOlder, evNewer]).map
        (fun m => m.event) = some evOlder ∧
    scoreEvent (pyLower "alphabet conference") 1000 evOlder =
      scoreEvent (pyLower "alphabet conference") 1000 evNewer ∧
    getEventDate evOlder < getEventDate evNewer ∧
    evOlder ≠ evNewer := by
  refine ⟨by decide, by decide, by decide, by decide⟩

/-- Claim C7 (amended): for a non-empty candidate list the resolver returns
a candidate of maximal score, breaking score ties in favour of the earliest
candidate in the supplied list (which equals the most recent event only when
the caller supplies candidates sorted most-recent-first), with confidence
`min(0.8, score/100)`; if every candidate scores 0 it returns a candidate of
maximal event date with confidence `0.3`; it reports failure exactly on the
empty candidate list. -/
theorem fuzzy_resolver_spec (q : String) (cur : Int) (events : List EventC) :
    (events = [] → fuzzyEventMatch q cur events = none) ∧
    (events ≠ [] → ∃ m, fuzzyEventMatch q cur events = some m ∧ m.event ∈ events ∧
      ((∃ e ∈ events, 0 < scoreEvent (pyLower q) cur e) →
        (∃ l₁ l₂, events = l₁ ++ m.event :: l₂ ∧
          (∀ e ∈ l₁, scoreEvent (pyLower q) cur e < scoreEvent (pyLower q) cur m.event) ∧
          (∀ e ∈ l₂, scoreEvent (pyLower q) cur e ≤ scoreEvent (pyLower q) cur m.event)) ∧
        m.confidence = min (4 / 5 : ℚ) ((scoreEvent (pyLower q) cur m.event : ℚ) / 100)) ∧
      ((∀ e ∈ events, scoreEvent (pyLower q) cur e = 0) →
        (∀ e ∈ events, getEventDate e ≤ getEventDate m.event) ∧
        m.confidence = 3 / 10)) := by
  constructor
  · intro h
    subst h
    rfl
  · intro hne
    cases events with
    | nil => exact absurd rfl hne
    | cons e0 es =>
      have hfm : fuzzyEventMatch q cur (e0 :: es) =
          if 0 < (bestScored q cur e0 es).2
          then some ⟨(bestScored q cur e0 es).1,
            min (4 / 5 : ℚ) (((bestScored q cur e0 es).2 : ℚ) / 100)⟩
          else some ⟨mostRecent0 e0 es, 3 / 10⟩ := rfl
      obtain ⟨L₁, L₂, hdec, hpre, hsuf⟩ :=
        pickBestScored_decomp (es.map (fun e => (e, scoreEvent (pyLower q) cur e)))
          (e0, scoreEvent (pyLower q) cur e0)
      have hfold : (es.map (fun e => (e, scoreEvent (pyLower q) cur e))).foldl
          (fun b y => if b.2 < y.2 then y else b)
          (e0, scoreEvent (pyLower q) cur e0) = bestScored q cur e0 es := rfl
      rw [hfold] at hdec hpre hsuf
      have hdec' : (e0 :: es).map (fun e => (e, scoreEvent (pyLower q) cur e)) =
          L₁ ++ bestScored q cur e0 es :: L₂ := by
        rw [List.map_cons]
        exact hdec
      obtain ⟨s, t, hst, hs, ht⟩ := List.append_eq_map_iff.mp hdec'.symm
      obtain ⟨b1, t', hteq, hfb, ht'⟩ := List.map_eq_cons_iff.mp ht
      have hB1 : (bestScored q cur e0 es).1 = b1 := by rw [← hfb]
      have hB2 : (bestScored q cur e0 es).2 = scoreEvent (pyLower q) cur b1 := by
        rw [← hfb]
      have hev : e0 :: es = s ++ b1 :: t' := by rw [hst, hteq]
      have hmemb1 : b1 ∈ e0 :: es := by
        rw [hev]
        exact List.mem_append_right s (List.mem_cons_self b1 t')
      have hmax : ∀ e ∈ e0 :: es,
          scoreEvent (pyLower q) cur e ≤ (bestScored q cur e0 es).2 := by
        intro e he
        rw [hev] at he
        rcases List.mem_append.mp he with h1 | h2
        · have hfe : (e, scoreEvent (pyLower q) cur e) ∈ L₁ := by
            rw [← hs]
            exact List.mem_map_of_mem _ h1
          exact le_of_lt (hpre _ hfe)
        · rcases List.mem_cons.mp h2 with h3 | h4
          · rw [h3, hB2]
          · have hfe : (e, scoreEvent (pyLower q) cur e) ∈ L₂ := by
              rw [← ht']
              exact List.mem_map_of_mem _ h4
            exact hsuf _ hfe
      by_cases h0 : 0 < (bestScored q cur e0 es).2
      · refine ⟨⟨(bestScored q cur e0 es).1,
          min (4 / 5 : ℚ) (((bestScored q cur e0 es).2 : ℚ) / 100)⟩, ?_, ?_, ?_, ?_⟩
        · rw [hfm, if_pos h0]
        · rw [hB1]
          exact hmemb1
        · intro _
          constructor
          · refine ⟨s, t', ?_, ?_, ?_⟩
            · rw [hB1]
              exact hev
            · intro e he
              have hfe : (e, scoreEvent (pyLower q) cur e) ∈ L₁ := by
                rw [← hs]
                exact List.mem_map_of_mem _ he
              have hlt := hpre _ hfe
              rw [hB2] at hlt
              show scoreEvent (pyLower q) cur e <
                scoreEvent (pyLower q) cur (bestScored q cur e0 es).1
              rw [hB1]
              exact hlt
            · intro e he
              have hfe : (e, scoreEvent (pyLower q) cur e) ∈ L₂ := by
                rw [← ht']
                exact List.mem_map_of_mem _ he
              have hle := hsuf _ hfe
              rw [hB2] at hle
              show scoreEvent (pyLower q) cur e ≤
                scoreEvent (pyLower q) cur (bestScored q cur e0 es).1
              rw [hB1]
              exact hle
          · show min (4 / 5 : ℚ) (((bestScored q cur e0 es).2 : ℚ) / 100) =
              min (4 / 5 : ℚ)
                ((scoreEvent (pyLower q) cur (bestScored q cur e0 es).1 : ℚ) / 100)
            rw [hB1, hB2]
        · intro hz
          exfalso
          have := hz b1 hmemb1
          rw [hB2, this] at h0
          exact Nat.lt_irrefl 0 h0
      · obtain ⟨d₁, d₂, hdd, hdpre, hdsuf⟩ := mostRecent_decomp es e0
        have hfoldd : es.foldl (fun b y => if getEventDate b < getEventDate y then y else b)
            e0 = mostRecent0 e0 es := rfl
        rw [hfoldd] at hdd hdpre hdsuf
        have hmemmr : mostRecent0 e0 es ∈ e0 :: es := by
          rw [hdd]
          exact List.mem_append_right d₁ (List.mem_cons_self _ d₂)
        refine ⟨⟨mostRecent0 e0 es, 3 / 10⟩, ?_, hmemmr, ?_, ?_⟩
        · rw [hfm, if_neg h0]
        · intro hpos
          exfalso
          obtain ⟨e, he, hepos⟩ := hpos
          exact h0 (lt_of_lt_of_le hepos (hmax e he))
        · intro _
          refine ⟨?_, rfl⟩
          intro e he
          rw [hdd] at he
          rcases List.mem_append.mp he with h1 | h2
          · exact le_of_lt (hdpre e h1)
          · rcases List.mem_cons.mp h2 with h3 | h4
            · rw [h3]
            · exact hdsuf e h4

/-- Witness for C7 (amended): the empty candidate list yields failure. -/
theorem fuzzy_resolver_spec_witness :
    fuzzyEventMatch "team sync" 0 [] = none :=
  (fuzzy_resolver_spec "team sync" 0 []).1 rfl

end CommSpec
